import Mathlib

/- Verification of the command-line tool in src/tpm2-totp.c: the base32
   encoder, the terminal QR rasterizer's buffer sizing, the option/command
   dispatcher and the five-command lifecycle orchestrator.

   Machine integers are modelled as Nat: the C expressions `x >> k`,
   `x << k` and `x & 0x1F` on (promoted) uint8_t values become `x / 2^k`,
   `x * 2^k` and `x % 32` (no intermediate overflows occur at int width),
   and `x |= v` keeps Nat.lor. Byte buffers are `List Nat`; `r[i] = v` is
   `List.set` and an `r[i] |= v` read-modify-write is `orStep`. Fallible
   or process-terminating paths are explicit result values. -/

set_option maxHeartbeats 1000000

/-! Base32 encoder, src/tpm2-totp.c lines 132-167. -/

/-- One memory access of `base32enc`: a read of `in[j]` or a write of
`r[i]` into the output allocation (`malloc(out_size + 1)`). -/
inductive B32Acc where
  | rd (j : Nat)
  | wr (i : Nat)
deriving DecidableEq, Repr

/-- The C statement `r[p] |= v`: read-modify-write of cell `p`. -/
def orStep (r : List Nat) (p v : Nat) : List Nat :=
  r.set p (r.getD p 0 ||| v)

/-- `out_size = ((in_size + 4) / 5) * 8` (line 137). -/
def base32OutSize (n : Nat) : Nat := ((n + 4) / 5) * 8

/-- The `while (1)` packing loop of `base32enc` (lines 140-158), entered with
output index `i`, input index `j` and the remaining input bytes. Each of the
five unroll stages consumes one byte and breaks when `++j >= in_size`; the
branches below are the loop body truncated at each of its five break points,
and the `i--`/`r[i++] |= ...` back-up pattern appears as an `orStep` on the
cell written just before. Returns the buffer, the final `i`, and the access
trace. The first branch is the entry with `in_size = 0`: the code still reads
`in[0]` (out of bounds, recorded as `rd j` with no byte available; the
indeterminate byte is modelled as 0) and performs the two writes. -/
def b32Loop : List Nat → Nat → Nat → List Nat → List Nat × Nat × List B32Acc
  | r, i, j, [] =>
    ((r.set i (0 / 8 % 32)).set (i+1) (0 * 4 % 32), i + 2,
     [B32Acc.rd j, B32Acc.wr i, B32Acc.wr (i+1)])
  | r, i, j, [b] =>
    ((r.set i (b / 8 % 32)).set (i+1) (b * 4 % 32), i + 2,
     [B32Acc.rd j, B32Acc.wr i, B32Acc.wr (i+1)])
  | r, i, j, [b, c] =>
    let r1 := (r.set i (b / 8 % 32)).set (i+1) (b * 4 % 32)
    let r2 := ((orStep r1 (i+1) (c / 64 % 32)).set (i+2)
                 (c / 2 % 32)).set (i+3) (c * 16 % 32)
    (r2, i + 4,
     [B32Acc.rd j, B32Acc.wr i, B32Acc.wr (i+1),
      B32Acc.rd (j+1), B32Acc.wr (i+1), B32Acc.wr (i+2), B32Acc.wr (i+3)])
  | r, i, j, [b, c, d] =>
    let r1 := (r.set i (b / 8 % 32)).set (i+1) (b * 4 % 32)
    let r2 := ((orStep r1 (i+1) (c / 64 % 32)).set (i+2)
                 (c / 2 % 32)).set (i+3) (c * 16 % 32)
    let r3 := (orStep r2 (i+3) (d / 16 % 32)).set (i+4) (d * 2 % 32)
    (r3, i + 5,
     [B32Acc.rd j, B32Acc.wr i, B32Acc.wr (i+1),
      B32Acc.rd (j+1), B32Acc.wr (i+1), B32Acc.wr (i+2), B32Acc.wr (i+3),
      B32Acc.rd (j+2), B32Acc.wr (i+3), B32Acc.wr (i+4)])
  | r, i, j, [b, c, d, e] =>
    let r1 := (r.set i (b / 8 % 32)).set (i+1) (b * 4 % 32)
    let r2 := ((orStep r1 (i+1) (c / 64 % 32)).set (i+2)
                 (c / 2 % 32)).set (i+3) (c * 16 % 32)
    let r3 := (orStep r2 (i+3) (d / 16 % 32)).set (i+4) (d * 2 % 32)
    let r4 := ((orStep r3 (i+4) (e / 128 % 32)).set (i+5)
                 (e / 4 % 32)).set (i+6) (e * 8 % 32)
    (r4, i + 7,
     [B32Acc.rd j, B32Acc.wr i, B32Acc.wr (i+1),
      B32Acc.rd (j+1), B32Acc.wr (i+1), B32Acc.wr (i+2), B32Acc.wr (i+3),
      B32Acc.rd (j+2), B32Acc.wr (i+3), B32Acc.wr (i+4),
      B32Acc.rd (j+3), B32Acc.wr (i+4), B32Acc.wr (i+5), B32Acc.wr (i+6)])
  | r, i, j, [b, c, d, e, f] =>
    let r1 := (r.set i (b / 8 % 32)).set (i+1) (b * 4 % 32)
    let r2 := ((orStep r1 (i+1) (c / 64 % 32)).set (i+2)
                 (c / 2 % 32)).set (i+3) (c * 16 % 32)
    let r3 := (orStep r2 (i+3) (d / 16 % 32)).set (i+4) (d * 2 % 32)
    let r4 := ((orStep r3 (i+4) (e / 128 % 32)).set (i+5)
                 (e / 4 % 32)).set (i+6) (e * 8 % 32)
    let r5 := (orStep r4 (i+6) (f / 32 % 32)).set (i+7) (f % 32)
    (r5, i + 8,
     [B32Acc.rd j, B32Acc.wr i, B32Acc.wr (i+1),
      B32Acc.rd (j+1), B32Acc.wr (i+1), B32Acc.wr (i+2), B32Acc.wr (i+3),
      B32Acc.rd (j+2), B32Acc.wr (i+3), B32Acc.wr (i+4),
      B32Acc.rd (j+3), B32Acc.wr (i+4), B32Acc.wr (i+5), B32Acc.wr (i+6),
      B32Acc.rd (j+4), B32Acc.wr (i+6), B32Acc.wr (i+7)])
  | r, i, j, b :: c :: d :: e :: f :: g :: rest =>
    let r1 := (r.set i (b / 8 % 32)).set (i+1) (b * 4 % 32)
    let r2 := ((orStep r1 (i+1) (c / 64 % 32)).set (i+2)
                 (c / 2 % 32)).set (i+3) (c * 16 % 32)
    let r3 := (orStep r2 (i+3) (d / 16 % 32)).set (i+4) (d * 2 % 32)
    let r4 := ((orStep r3 (i+4) (e / 128 % 32)).set (i+5)
                 (e / 4 % 32)).set (i+6) (e * 8 % 32)
    let r5 := (orStep r4 (i+6) (f / 32 % 32)).set (i+7) (f % 32)
    let out := b32Loop r5 (i+8) (j+5) (g :: rest)
    (out.1, out.2.1,
     [B32Acc.rd j, B32Acc.wr i, B32Acc.wr (i+1),
      B32Acc.rd (j+1), B32Acc.wr (i+1), B32Acc.wr (i+2), B32Acc.wr (i+3),
      B32Acc.rd (j+2), B32Acc.wr (i+3), B32Acc.wr (i+4),
      B32Acc.rd (j+3), B32Acc.wr (i+4), B32Acc.wr (i+5), B32Acc.wr (i+6),
      B32Acc.rd (j+4), B32Acc.wr (i+6), B32Acc.wr (i+7)] ++ out.2.2)

/-- The 5-bit symbol values the packing loop leaves in `r[0..i)`, read off
from the same statements (`|||` where the code `|=`s into the previous
spill cell). -/
def b32syms : List Nat → List Nat
  | [] => []
  | [b] => [b / 8 % 32, b * 4 % 32]
  | [b, c] => [b / 8 % 32, b * 4 % 32 ||| c / 64 % 32, c / 2 % 32,
               c * 16 % 32]
  | [b, c, d] => [b / 8 % 32, b * 4 % 32 ||| c / 64 % 32, c / 2 % 32,
                  c * 16 % 32 ||| d / 16 % 32, d * 2 % 32]
  | [b, c, d, e] => [b / 8 % 32, b * 4 % 32 ||| c / 64 % 32, c / 2 % 32,
                     c * 16 % 32 ||| d / 16 % 32, d * 2 % 32 ||| e / 128 % 32,
                     e / 4 % 32, e * 8 % 32]
  | b :: c :: d :: e :: f :: rest =>
      [b / 8 % 32, b * 4 % 32 ||| c / 64 % 32, c / 2 % 32,
       c * 16 % 32 ||| d / 16 % 32, d * 2 % 32 ||| e / 128 % 32,
       e / 4 % 32, e * 8 % 32 ||| f / 32 % 32, f % 32] ++ b32syms rest

/-- The alphabet string of line 134, as ASCII codes. -/
def base32tab : List Nat :=
  "ABCDEFGHIJKLMNOPQRSTUVWXYZ234567".toList.map Char.toNat

/-- The mapping loop of lines 159-161: `for (j = 0; j < i; j++)
r[j] = base32[r[j]];` — walk the buffer replacing the first `i` cells by
their alphabet byte. -/
def alphaMap : List Nat → Nat → List Nat
  | r, 0 => r
  | [], _ + 1 => []
  | v :: r, n + 1 => base32tab.getD v 0 :: alphaMap r n

/-- The padding loop of lines 162-164: `while (i < out_size) r[i++] = '=';`.
The loop runs exactly `os - i` times; `padGo` takes that count as fuel so the
definition is structural. Returns the buffer, the final `i` and the list of
written indices ('=' is ASCII 61). -/
def padGo : Nat → List Nat → Nat → List Nat × Nat × List Nat
  | 0, r, i => (r, i, [])
  | m + 1, r, i =>
    let out := padGo m (r.set i 61) (i+1)
    (out.1, out.2.1, i :: out.2.2)

/-- Lines 162-164 as a whole: pad from `i` up to `out_size`. -/
def padLoop (r : List Nat) (i os : Nat) : List Nat × Nat × List Nat :=
  padGo (os - i) r i

/-- Run of the packing loop of `base32enc` on the allocated buffer
(`malloc(out_size + 1)`), with `i = j = 0` (line 136). The model buffer has
two extra scratch cells beyond the allocation so that the writes the code
performs PAST its allocation on empty input still land somewhere and the
returned string can be read off; those cells are flagged as out-of-bounds
through the access trace, and are never touched for nonempty input. -/
def b32run (inp : List Nat) : List Nat × Nat × List B32Acc :=
  b32Loop (List.replicate (base32OutSize inp.length + 3) 0) 0 0 inp

/-- `base32enc` (lines 132-167): pack, map through the alphabet, pad with
'=', write the terminating NUL, and read the result back as the C string the
caller sees (bytes up to the first NUL). -/
def base32enc (inp : List Nat) : List Nat :=
  let os := base32OutSize inp.length
  let p := b32run inp
  let q := padLoop (alphaMap p.1 p.2.1) p.2.1 os
  ((q.1.set q.2.1 0).takeWhile (fun c => c ≠ 0))

/-- Indices of the input bytes `base32enc` reads. -/
def base32encReads (inp : List Nat) : List Nat :=
  (b32run inp).2.2.filterMap
    (fun a => match a with
      | B32Acc.rd k => some k
      | B32Acc.wr _ => Option.none)

/-- Indices of every access `base32enc` makes to its output allocation:
the packing-loop writes, the cells the alphabet loop rewrites, the padding
writes, and the final NUL store `r[i] = 0`. -/
def base32encOutAccs (inp : List Nat) : List Nat :=
  let os := base32OutSize inp.length
  let p := b32run inp
  let q := padLoop (alphaMap p.1 p.2.1) p.2.1 os
  ((b32run inp).2.2.filterMap
    (fun a => match a with
      | B32Acc.wr m => some m
      | B32Acc.rd _ => Option.none))
  ++ List.range p.2.1 ++ q.2.2 ++ [q.2.1]

/-- `base32enc` stays in bounds on input `inp`: every input read is below
`in_size` and every output access is inside the `out_size + 1` bytes it
allocates. -/
def base32encSafe (inp : List Nat) : Prop :=
  (∀ k ∈ base32encReads inp, k < inp.length) ∧
  (∀ m ∈ base32encOutAccs inp, m < base32OutSize inp.length + 1)

instance (inp : List Nat) : Decidable (base32encSafe inp) := by
  unfold base32encSafe; infer_instance

/-- Modelled from the spec (section 4.2): the RFC 4648 base32 interleave.
Each up-to-5-byte group yields its symbols as explicit 5-bit values taken
most-significant-bit first across the group — sym0 is byte0 bits 7-3, sym1
is byte0 bits 2-0 joined with byte1 bits 7-6, and so on; a final partial
group is completed with zero bits. `x / 2^k % 2` is bit `k` of `x`, and a
symbol is the weighted sum `16*b4 + 8*b3 + 4*b2 + 2*b1 + b0` of its five
bits. -/
def rfcSyms : List Nat → List Nat
  | [] => []
  | [b] =>
    [16*(b/128%2) + 8*(b/64%2) + 4*(b/32%2) + 2*(b/16%2) + b/8%2,
     16*(b/4%2) + 8*(b/2%2) + 4*(b%2)]
  | [b, c] =>
    [16*(b/128%2) + 8*(b/64%2) + 4*(b/32%2) + 2*(b/16%2) + b/8%2,
     16*(b/4%2) + 8*(b/2%2) + 4*(b%2) + 2*(c/128%2) + c/64%2,
     16*(c/32%2) + 8*(c/16%2) + 4*(c/8%2) + 2*(c/4%2) + c/2%2,
     16*(c%2)]
  | [b, c, d] =>
    [16*(b/128%2) + 8*(b/64%2) + 4*(b/32%2) + 2*(b/16%2) + b/8%2,
     16*(b/4%2) + 8*(b/2%2) + 4*(b%2) + 2*(c/128%2) + c/64%2,
     16*(c/32%2) + 8*(c/16%2) + 4*(c/8%2) + 2*(c/4%2) + c/2%2,
     16*(c%2) + 8*(d/128%2) + 4*(d/64%2) + 2*(d/32%2) + d/16%2,
     16*(d/8%2) + 8*(d/4%2) + 4*(d/2%2) + 2*(d%2)]
  | [b, c, d, e] =>
    [16*(b/128%2) + 8*(b/64%2) + 4*(b/32%2) + 2*(b/16%2) + b/8%2,
     16*(b/4%2) + 8*(b/2%2) + 4*(b%2) + 2*(c/128%2) + c/64%2,
     16*(c/32%2) + 8*(c/16%2) + 4*(c/8%2) + 2*(c/4%2) + c/2%2,
     16*(c%2) + 8*(d/128%2) + 4*(d/64%2) + 2*(d/32%2) + d/16%2,
     16*(d/8%2) + 8*(d/4%2) + 4*(d/2%2) + 2*(d%2) + e/128%2,
     16*(e/64%2) + 8*(e/32%2) + 4*(e/16%2) + 2*(e/8%2) + e/4%2,
     16*(e/2%2) + 8*(e%2)]
  | b :: c :: d :: e :: f :: rest =>
    [16*(b/128%2) + 8*(b/64%2) + 4*(b/32%2) + 2*(b/16%2) + b/8%2,
     16*(b/4%2) + 8*(b/2%2) + 4*(b%2) + 2*(c/128%2) + c/64%2,
     16*(c/32%2) + 8*(c/16%2) + 4*(c/8%2) + 2*(c/4%2) + c/2%2,
     16*(c%2) + 8*(d/128%2) + 4*(d/64%2) + 2*(d/32%2) + d/16%2,
     16*(d/8%2) + 8*(d/4%2) + 4*(d/2%2) + 2*(d%2) + e/128%2,
     16*(e/64%2) + 8*(e/32%2) + 4*(e/16%2) + 2*(e/8%2) + e/4%2,
     16*(e/2%2) + 8*(e%2) + 4*(f/128%2) + 2*(f/64%2) + f/32%2,
     16*(f/16%2) + 8*(f/8%2) + 4*(f/4%2) + 2*(f/2%2) + f%2] ++ rfcSyms rest

/-- Number of '=' characters per `in_size % 5`, as the code produces them. -/
def padCount (r : Nat) : Nat :=
  if r = 1 then 6 else if r = 2 then 4 else if r = 3 then 3 else
  if r = 4 then 1 else 0

/-- Number of symbols the tail group of size `in_size % 5` contributes. -/
def tailLen (r : Nat) : Nat :=
  if r = 1 then 2 else if r = 2 then 4 else if r = 3 then 5 else
  if r = 4 then 7 else 0

/-! QR rasterizer, src/tpm2-totp.c lines 169-200. -/

/-- Format string of the margin rows, `"\033[47m%*s\033[0m\n"`. -/
def marginFmtStr : String := "\x1b[47m%*s\x1b[0m\n"

/-- `"\033[47m  "`: one light (white background) double-width cell. -/
def lightBlockStr : String := "\x1b[47m  "

/-- `"\033[40m  "`: one dark (black background) double-width cell. -/
def darkBlockStr : String := "\x1b[40m  "

/-- `"\033[47m  \033[0m\n"`: right margin cell, color reset, line break. -/
def rowEndStr : String := "\x1b[47m  \x1b[0m\n"

/-- The `malloc` size expression of lines 176-182. -/
def qrAlloc (w : Nat) : Nat :=
  2 * ((w + 2) * 2 - 2 + marginFmtStr.length) +
  w * (lightBlockStr.length * (w + 1) + rowEndStr.length) + 1

/-- A margin row as `sprintf(..., "\033[47m%*s\033[0m\n", 2*(width+2), "")`
produces it: the color sequence, `2*(w+2)` spaces, reset, line break. -/
def marginRowChars (w : Nat) : List Char :=
  "\x1b[47m".toList ++ List.replicate (2 * (w + 2)) ' ' ++ "\x1b[0m\n".toList

/-- One cell: `data[y*width+x] & 0x01` selects dark, else light. -/
def qrCell (v : Nat) : List Char :=
  if v % 2 = 1 then darkBlockStr.toList else lightBlockStr.toList

/-- One data row (lines 186-194): left margin block, `w` cells, row end. -/
def qrRowChars (w y : Nat) (data : List Nat) : List Char :=
  lightBlockStr.toList ++
  ((List.range w).map (fun x => qrCell (data.getD (y * w + x) 0))).flatten ++
  rowEndStr.toList

/-- The full rendered picture (lines 184-196): top margin row, `w` data
rows, bottom margin row. The bytes `qrencode` writes into `qrpic` are these
characters plus one terminating NUL (each intermediate `sprintf` NUL is
overwritten by the next write and lies below the final one). -/
def qrpicChars (w : Nat) (data : List Nat) : List Char :=
  marginRowChars w ++
  ((List.range w).map (fun y => qrRowChars w y data)).flatten ++
  marginRowChars w

/-! Option and command dispatch, src/tpm2-totp.c lines 22-130. -/

/-- The command enum of line 43. -/
inductive Cmd where
  | CMD_NONE
  | CMD_GENERATE
  | CMD_CALCULATE
  | CMD_RESEAL
  | CMD_RECOVER
  | CMD_CLEAN
deriving DecidableEq, Repr

/-- The `struct opt` of lines 42-48. -/
structure OptState where
  cmd : Cmd
  nvindex : Int
  password : Option String
  time : Bool
  verbose : Bool
deriving DecidableEq, Repr

/-- The defaults set at lines 63-67 (note `opt.nvindex = 0`). -/
def initOpts : OptState :=
  { cmd := Cmd.CMD_NONE, nvindex := 0, password := Option.none,
    time := false, verbose := false }

/-- Outcome of a piece of `parse_opts`: keep going with the updated option
state, or terminate the process with the given status. -/
inductive LoopOut where
  | proceed (st : OptState)
  | exitWith (code : Nat)
deriving DecidableEq, Repr

/-- `optstr` of line 32. -/
def optstr : String := "N:P:tv"

/-- The short-option characters `optstr` declares. -/
def shortOptChars : List Char := optstr.toList.filter (fun c => c ≠ ':')

/-- The `name` fields of `long_options` (lines 34-40): note no "help". -/
def longOptionNames : List String := ["nvindex", "password", "time", "verbose"]

/-- The `val` fields of `long_options`, in the same order. -/
def longOptionVals : List Char := ['N', 'P', 't', 'v']

/-- Modelled from the spec: `getopt_long` is the libc collaborator; for a
short flag it returns the flag character when it is declared in `optstr` or
is the `val` of a `long_options` entry, and `'?'` for an unknown option. -/
def getoptLongModel (c : Char) : Char :=
  if c ∈ shortOptChars ∨ c ∈ longOptionVals then c else '?'

/-- Modelled from the spec: `getopt_long` maps a long flag `--name` to the
corresponding `val` entry of `long_options`, and returns `'?'` when no entry
has that name. -/
def getoptLongNameModel (s : String) : Char :=
  match (longOptionNames.zip longOptionVals).find? (fun p => p.1 = s) with
  | some p => p.2
  | Option.none => '?'

/-- Modelled from the spec: the nvindex argument is accepted as hexadecimal
(`0x...`, via `sscanf("0x%x")`) or decimal (via `sscanf("%i")`); `none` when
neither scan matches. Only reachability of the branch matters for the claims;
the scan itself is libc. -/
def parseNvindexArg (s : String) : Option Int :=
  let hexDigit (c : Char) : Option Nat :=
    if '0' ≤ c ∧ c ≤ '9' then some (c.toNat - 48)
    else if 'a' ≤ c ∧ c ≤ 'f' then some (c.toNat - 87)
    else if 'A' ≤ c ∧ c ≤ 'F' then some (c.toNat - 55)
    else Option.none
  let decDigit (c : Char) : Option Nat :=
    if '0' ≤ c ∧ c ≤ '9' then some (c.toNat - 48) else Option.none
  let rec accum (dig : Char → Option Nat) (base : Nat) :
      List Char → Nat → Option Nat
    | [], acc => some acc
    | c :: cs, acc =>
      match dig c with
      | some d => accum dig base cs (acc * base + d)
      | Option.none => Option.none
  match s.toList with
  | '0' :: 'x' :: cs =>
    if cs = [] then Option.none else (accum hexDigit 16 cs 0).map Int.ofNat
  | cs =>
    if cs = [] then Option.none else (accum decDigit 10 cs 0).map Int.ofNat

/-- The `switch (c)` of lines 74-98 on one value returned by `getopt_long`,
with the flag's argument. `case 'h'` prints the help and exits 0;
`case 'e'` parses the nvindex (exit 1 on a scan failure); `'P'`, `'t'`,
`'v'` update the state; anything else falls to `default`, which prints
"Unknown option" plus the help and exits 1. There is no `case 'N'`. -/
def switchStep (st : OptState) (c : Char) (arg : String) : LoopOut :=
  if c = 'h' then LoopOut.exitWith 0
  else if c = 'e' then
    match parseNvindexArg arg with
    | some v => LoopOut.proceed { st with nvindex := v }
    | Option.none => LoopOut.exitWith 1
  else if c = 'P' then LoopOut.proceed { st with password := some arg }
  else if c = 't' then LoopOut.proceed { st with time := true }
  else if c = 'v' then LoopOut.proceed { st with verbose := true }
  else LoopOut.exitWith 1

/-- The `while (-1 != (c = getopt_long(...)))` loop of lines 72-99 over the
sequence of (returned char, argument) pairs the libc collaborator yields. -/
def optLoop : OptState → List (Char × String) → LoopOut
  | st, [] => LoopOut.proceed st
  | st, (c, a) :: rest =>
    match switchStep st c a with
    | LoopOut.proceed st' => optLoop st' rest
    | LoopOut.exitWith k => LoopOut.exitWith k

/-- The `strcmp` chain of lines 107-121 on the positional argument. -/
def cmdOfToken (tok : String) : Option Cmd :=
  if tok = "generate" then some Cmd.CMD_GENERATE
  else if tok = "calculate" then some Cmd.CMD_CALCULATE
  else if tok = "reseal" then some Cmd.CMD_RESEAL
  else if tok = "recover" then some Cmd.CMD_RECOVER
  else if tok = "clean" then some Cmd.CMD_CLEAN
  else Option.none

/-- Lines 101-129: missing command exits 1; an unknown token exits 1; a
trailing extra argument exits 1; otherwise `opt.cmd` is set and `parse_opts`
returns 0. `posArgs` is `argv[optind..]`. -/
def parseCmdPhase (st : OptState) (posArgs : List String) : LoopOut :=
  match posArgs with
  | [] => LoopOut.exitWith 1
  | tok :: rest =>
    match cmdOfToken tok with
    | some c =>
      if rest = [] then LoopOut.proceed { st with cmd := c }
      else LoopOut.exitWith 1
    | Option.none => LoopOut.exitWith 1

/-- `parse_opts` (lines 59-130): defaults, the getopt loop, then the
positional command phase. -/
def parse_opts (optEvents : List (Char × String)) (posArgs : List String) :
    LoopOut :=
  match optLoop initOpts optEvents with
  | LoopOut.proceed st => parseCmdPhase st posArgs
  | LoopOut.exitWith k => LoopOut.exitWith k

/-- The branch selected by `switch (opt.cmd)` in `main` (lines 227-309). -/
inductive MainBranch where
  | generate
  | calculate
  | reseal
  | recover
  | clean
  | defaultExit1
deriving DecidableEq, Repr

/-- `main`'s command switch: each command value selects its branch and
`CMD_NONE` falls to `default:`, which is `exit(1)`. -/
def mainSwitch : Cmd → MainBranch
  | Cmd.CMD_GENERATE => MainBranch.generate
  | Cmd.CMD_CALCULATE => MainBranch.calculate
  | Cmd.CMD_RESEAL => MainBranch.reseal
  | Cmd.CMD_RECOVER => MainBranch.recover
  | Cmd.CMD_CLEAN => MainBranch.clean
  | Cmd.CMD_NONE => MainBranch.defaultExit1

/-- The help text of lines 22-30 (its lines document `-h, --help` and the
nvindex default `0x018094AF`). -/
def help : String :=
  "Usage: [options] \x7bgenerate|calculate|reseal|recover|clean\x7d\n" ++
  "Options:\n" ++
  "    -h, --help      print help\n" ++
  "    -N, --nvindex   TPM NV index to store data (default: 0x018094AF)\n" ++
  "    -P, --password  Password for recovery/resealing (default: None)\n" ++
  "    -t, --time      Show the time used for calculation\n" ++
  "    -v, --verbose   print verbose messages\n" ++
  "\n"

/-! Reseal lifecycle, src/tpm2-totp.c lines 264-280. -/

/-- One call to the secure-storage collaborator. -/
inductive StorageCall where
  | load
  | reseal
  | delete
  | store
deriving DecidableEq, Repr

/-- The `CMD_RESEAL` branch of `main`: `tpm2totp_loadKey_nv`,
`tpm2totp_reseal`, `tpm2totp_deleteKey_nv`, `tpm2totp_storeKey_nv`, each
followed by `chkrc(rc, exit(1))` (`TSS2_RC_SUCCESS` is 0). The four
arguments are the return codes the collaborator hands back; the result is
the sequence of calls made and the process exit status (0 from `main`'s
`return 0`). -/
def resealCmd (loadRc resealRc deleteRc storeRc : Nat) :
    List StorageCall × Nat :=
  if loadRc ≠ 0 then ([StorageCall.load], 1)
  else if resealRc ≠ 0 then ([StorageCall.load, StorageCall.reseal], 1)
  else if deleteRc ≠ 0 then
    ([StorageCall.load, StorageCall.reseal, StorageCall.delete], 1)
  else if storeRc ≠ 0 then
    ([StorageCall.load, StorageCall.reseal, StorageCall.delete,
      StorageCall.store], 1)
  else
    ([StorageCall.load, StorageCall.reseal, StorageCall.delete,
      StorageCall.store], 0)

/-- The full call sequence of a successful Reseal. -/
def resealFullSeq : List StorageCall :=
  [StorageCall.load, StorageCall.reseal, StorageCall.delete,
   StorageCall.store]

/-! Calculate output, src/tpm2-totp.c lines 250-263. -/

/-- Decimal digits of `n`, most significant first, as `printf` renders
`%ld`; fuel-structural (`n + 1` is always enough fuel). -/
def natDigitsGo : Nat → Nat → List Char
  | 0, _ => []
  | fuel + 1, n =>
    if n < 10 then [Char.ofNat (48 + n)]
    else natDigitsGo fuel (n / 10) ++ [Char.ofNat (48 + n % 10)]

/-- Decimal rendering of `n`. -/
def natDigits (n : Nat) : List Char := natDigitsGo (n + 1) n

/-- `%06ld`: decimal digits left-padded with '0' to width at least 6. -/
def format06 (n : Nat) : List Char :=
  List.replicate (6 - (natDigits n).length) '0' ++ natDigits n

/-- The `CMD_CALCULATE` output: `printf("%s%06ld", timestr, totp)` where
`timestr` is the `strftime` text if `opt.time` was set and the empty string
otherwise (`char timestr[100] = { 0, }`, line 225). No newline follows. -/
def calculateOutput (timeFlag : Bool) (timestr : List Char) (totp : Nat) :
    List Char :=
  (if timeFlag then timestr else []) ++ format06 totp

/-! Proof-side bridge definitions. -/

/-- Write the values `vs` at consecutive indices of `r` starting at `i`. -/
def writeList : List Nat → Nat → List Nat → List Nat
  | r, _, [] => r
  | r, i, v :: vs => writeList (r.set i v) (i+1) vs

/-- The buffer `r` with `vs` overlaid at positions `i ..< i + |vs|`. -/
def bufAfter (r : List Nat) (i : Nat) (vs : List Nat) : List Nat :=
  r.take i ++ vs ++ r.drop (i + vs.length)

/-- Access index bounds: reads below `jmax`, writes below `imax`. -/
def accLt (jmax imax : Nat) : B32Acc → Prop
  | B32Acc.rd k => k < jmax
  | B32Acc.wr m => m < imax

/-! General list lemmas. -/

theorem take_set_succ : ∀ (r : List Nat) (i v : Nat), i < r.length →
    (r.set i v).take (i+1) = r.take i ++ [v] := by
  intro r
  induction r with
  | nil => intro i v h; simp at h
  | cons x xs ih =>
    intro i v h
    cases i with
    | zero => simp
    | succ i =>
      simp only [List.set_cons_succ, List.take_succ_cons, List.cons_append]
      rw [ih i v (by simpa using h)]

theorem getD_set_self (r : List Nat) (i v : Nat) (h : i < r.length) :
    (r.set i v).getD i 0 = v := by
  simp [List.getD_eq_getElem?_getD, List.getElem?_set_self h]

theorem orStep_set (r : List Nat) (p a v : Nat) (h : p < r.length) :
    orStep (r.set p a) p v = r.set p (a ||| v) := by
  unfold orStep
  rw [getD_set_self r p a h, List.set_set]

theorem writeList_eq : ∀ (vs : List Nat) (r : List Nat) (i : Nat),
    i + vs.length ≤ r.length → writeList r i vs = bufAfter r i vs := by
  intro vs
  induction vs with
  | nil =>
    intro r i h
    simp [writeList, bufAfter]
  | cons v vs ih =>
    intro r i h
    simp only [List.length_cons] at h
    have hi : i < r.length := by omega
    simp only [writeList]
    rw [ih (r.set i v) (i+1) (by simpa using by omega)]
    unfold bufAfter
    rw [take_set_succ r i v hi,
        List.drop_set, if_pos (by omega)]
    simp only [List.length_cons, List.append_assoc, List.singleton_append]
    have : i + (vs.length + 1) = i + 1 + vs.length := by omega
    rw [this]

theorem bufAfter_length (r : List Nat) (i : Nat) (vs : List Nat)
    (h : i + vs.length ≤ r.length) : (bufAfter r i vs).length = r.length := by
  unfold bufAfter
  simp only [List.length_append, List.length_take, List.length_drop]
  omega

theorem take_append_len (xs ys : List Nat) (n : Nat) (h : n = xs.length) :
    (xs ++ ys).take n = xs := by
  subst h; exact List.take_left xs ys

theorem drop_append_len (xs ys : List Nat) (n m : Nat) (h : n = xs.length) :
    (xs ++ ys).drop (n + m) = ys.drop m := by
  subst h
  rw [← List.drop_drop, List.drop_left]

theorem bufAfter_append (r : List Nat) (i : Nat) (xs ys : List Nat)
    (h : i + xs.length + ys.length ≤ r.length) :
    bufAfter (bufAfter r i xs) (i + xs.length) ys = bufAfter r i (xs ++ ys) := by
  unfold bufAfter
  have h1 : ((r.take i ++ xs) ++ r.drop (i + xs.length)).take (i + xs.length)
      = r.take i ++ xs :=
    take_append_len _ _ _ (by simp [List.length_take]; omega)
  have h2 : ((r.take i ++ xs) ++ r.drop (i + xs.length)).drop
      (i + xs.length + ys.length)
      = (r.drop (i + xs.length)).drop ys.length :=
    drop_append_len _ _ _ _ (by simp [List.length_take]; omega)
  rw [h1, h2, List.drop_drop]
  simp only [List.length_append]
  rw [show i + (xs.length + ys.length) = i + xs.length + ys.length from by
    omega]
  simp [List.append_assoc]

/-- Induction along the 5-byte group structure of the packing loop. -/
theorem fiveInduction (P : List Nat → Prop)
    (h0 : P [])
    (h1 : ∀ b, P [b])
    (h2 : ∀ b c, P [b, c])
    (h3 : ∀ b c d, P [b, c, d])
    (h4 : ∀ b c d e, P [b, c, d, e])
    (h5 : ∀ b c d e f, P [b, c, d, e, f])
    (hstep : ∀ b c d e f g rest, P (g :: rest) →
      P (b :: c :: d :: e :: f :: g :: rest)) :
    ∀ l, P l := by
  have key : ∀ n l, List.length l ≤ n → P l := by
    intro n
    induction n with
    | zero =>
      intro l h
      cases l with
      | nil => exact h0
      | cons x xs => simp at h
    | succ n ih =>
      intro l hl
      rcases l with _ | ⟨b, _ | ⟨c, _ | ⟨d, _ | ⟨e, _ | ⟨f, _ | ⟨g, rest⟩⟩⟩⟩⟩⟩
      · exact h0
      · exact h1 b
      · exact h2 b c
      · exact h3 b c d
      · exact h4 b c d e
      · exact h5 b c d e f
      · exact hstep b c d e f g rest
          (ih (g :: rest) (by simp at hl ⊢; omega))
  exact fun l => key l.length l (Nat.le_refl _)

theorem orStep_length (r : List Nat) (p v : Nat) :
    (orStep r p v).length = r.length := by
  simp [orStep]

theorem accLt_mono (j1 i1 j2 i2 : Nat) (a : B32Acc) (h : accLt j1 i1 a)
    (hj : j1 ≤ j2) (hi : i1 ≤ i2) : accLt j2 i2 a := by
  cases a with
  | rd k => simp only [accLt] at h ⊢; omega
  | wr m => simp only [accLt] at h ⊢; omega

/-- Full characterisation of the packing loop on nonempty input: the final
buffer is the input's symbol values written at consecutive cells from `i`,
the final output index advances by the symbol count, and every traced read
is below the input end while every traced write is below the symbol end. -/
theorem b32Loop_spec : ∀ inp : List Nat, inp ≠ [] →
    ∀ r i j, i + (b32syms inp).length ≤ r.length →
    (b32Loop r i j inp).1 = bufAfter r i (b32syms inp) ∧
    (b32Loop r i j inp).2.1 = i + (b32syms inp).length ∧
    (∀ a ∈ (b32Loop r i j inp).2.2,
      accLt (j + inp.length) (i + (b32syms inp).length) a) := by
  intro inp
  induction inp using fiveInduction with
  | h0 => intro h; exact absurd rfl h
  | h1 b =>
    intro _ r i j hlen
    have hlen' : i + 2 ≤ r.length := by simpa [b32syms] using hlen
    refine ⟨?_, ?_, ?_⟩
    · have hw := writeList_eq [b / 8 % 32, b * 4 % 32] r i (by simpa using
        hlen')
      simp only [writeList] at hw
      simpa [b32Loop, b32syms] using hw
    · simp [b32Loop, b32syms]
    · intro a ha
      simp only [b32Loop, List.mem_cons, List.not_mem_nil, or_false] at ha
      rcases ha with rfl | rfl | rfl <;> simp [accLt, b32syms]
  | h2 b c =>
    intro _ r i j hlen
    have hlen' : i + 4 ≤ r.length := by simpa [b32syms] using hlen
    refine ⟨?_, ?_, ?_⟩
    · simp only [b32Loop]
      rw [orStep_set]
      · have hw := writeList_eq
          [b / 8 % 32, b * 4 % 32 ||| c / 64 % 32, c / 2 % 32, c * 16 % 32]
          r i (by simpa using hlen')
        simp only [writeList] at hw
        simpa [b32syms] using hw
      · simp only [List.length_set]; omega
    · simp [b32Loop, b32syms]
    · intro a ha
      simp only [b32Loop, List.mem_cons, List.not_mem_nil, or_false] at ha
      rcases ha with rfl | rfl | rfl | rfl | rfl | rfl | rfl <;>
        simp [accLt, b32syms]
  | h3 b c d =>
    intro _ r i j hlen
    have hlen' : i + 5 ≤ r.length := by simpa [b32syms] using hlen
    refine ⟨?_, ?_, ?_⟩
    · simp only [b32Loop]
      rw [orStep_set, orStep_set]
      · have hw := writeList_eq
          [b / 8 % 32, b * 4 % 32 ||| c / 64 % 32, c / 2 % 32,
           c * 16 % 32 ||| d / 16 % 32, d * 2 % 32]
          r i (by simpa using hlen')
        simp only [writeList] at hw
        simpa [b32syms] using hw
      · simp only [List.length_set]; omega
      · simp only [List.length_set, orStep_length]; omega
    · simp [b32Loop, b32syms]
    · intro a ha
      simp only [b32Loop, List.mem_cons, List.not_mem_nil, or_false] at ha
      rcases ha with rfl | rfl | rfl | rfl | rfl | rfl | rfl | rfl | rfl |
        rfl <;> simp [accLt, b32syms]
  | h4 b c d e =>
    intro _ r i j hlen
    have hlen' : i + 7 ≤ r.length := by simpa [b32syms] using hlen
    refine ⟨?_, ?_, ?_⟩
    · simp only [b32Loop]
      rw [orStep_set, orStep_set, orStep_set]
      · have hw := writeList_eq
          [b / 8 % 32, b * 4 % 32 ||| c / 64 % 32, c / 2 % 32,
           c * 16 % 32 ||| d / 16 % 32, d * 2 % 32 ||| e / 128 % 32,
           e / 4 % 32, e * 8 % 32]
          r i (by simpa using hlen')
        simp only [writeList] at hw
        simpa [b32syms] using hw
      · simp only [List.length_set]; omega
      · simp only [List.length_set, orStep_length]; omega
      · simp only [List.length_set, orStep_length]; omega
    · simp [b32Loop, b32syms]
    · intro a ha
      simp only [b32Loop, List.mem_cons, List.not_mem_nil, or_false] at ha
      rcases ha with rfl | rfl | rfl | rfl | rfl | rfl | rfl | rfl | rfl |
        rfl | rfl | rfl | rfl | rfl <;> simp [accLt, b32syms]
  | h5 b c d e f =>
    intro _ r i j hlen
    have hlen' : i + 8 ≤ r.length := by simpa [b32syms] using hlen
    refine ⟨?_, ?_, ?_⟩
    · simp only [b32Loop]
      rw [orStep_set, orStep_set, orStep_set, orStep_set]
      · have hw := writeList_eq
          [b / 8 % 32, b * 4 % 32 ||| c / 64 % 32, c / 2 % 32,
           c * 16 % 32 ||| d / 16 % 32, d * 2 % 32 ||| e / 128 % 32,
           e / 4 % 32, e * 8 % 32 ||| f / 32 % 32, f % 32]
          r i (by simpa using hlen')
        simp only [writeList] at hw
        simpa [b32syms] using hw
      · simp only [List.length_set]; omega
      · simp only [List.length_set, orStep_length]; omega
      · simp only [List.length_set, orStep_length]; omega
      · simp only [List.length_set, orStep_length]; omega
    · simp [b32Loop, b32syms]
    · intro a ha
      simp only [b32Loop, List.mem_cons, List.not_mem_nil, or_false] at ha
      rcases ha with rfl | rfl | rfl | rfl | rfl | rfl | rfl | rfl | rfl |
        rfl | rfl | rfl | rfl | rfl | rfl | rfl | rfl <;>
        simp [accLt, b32syms]
  | hstep b c d e f g rest IH =>
    intro _ r i j hlen
    have hL : (b32syms (b :: c :: d :: e :: f :: g :: rest)).length
        = 8 + (b32syms (g :: rest)).length := by
      simp [b32syms]; omega
    have hlen8 : i + 8 + (b32syms (g :: rest)).length ≤ r.length := by omega
    have hne' : (g :: rest) ≠ [] := by simp
    refine ⟨?_, ?_, ?_⟩
    · simp only [b32Loop]
      rw [orStep_set, orStep_set, orStep_set, orStep_set]
      · have hw := writeList_eq
          [b / 8 % 32, b * 4 % 32 ||| c / 64 % 32, c / 2 % 32,
           c * 16 % 32 ||| d / 16 % 32, d * 2 % 32 ||| e / 128 % 32,
           e / 4 % 32, e * 8 % 32 ||| f / 32 % 32, f % 32]
          r i (by simp; omega)
        simp only [writeList] at hw
        rw [hw]
        have hbig : i + 8 +
            (b32syms (g :: rest)).length ≤ (bufAfter r i
              [b / 8 % 32, b * 4 % 32 ||| c / 64 % 32, c / 2 % 32,
               c * 16 % 32 ||| d / 16 % 32, d * 2 % 32 ||| e / 128 % 32,
               e / 4 % 32, e * 8 % 32 ||| f / 32 % 32, f % 32]).length := by
          rw [bufAfter_length _ _ _ (by simp; omega)]
          omega
        have hIH := IH hne' (bufAfter r i
          [b / 8 % 32, b * 4 % 32 ||| c / 64 % 32, c / 2 % 32,
           c * 16 % 32 ||| d / 16 % 32, d * 2 % 32 ||| e / 128 % 32,
           e / 4 % 32, e * 8 % 32 ||| f / 32 % 32, f % 32])
          (i + 8) (j + 5) (by omega)
        rw [hIH.1]
        have happ := bufAfter_append r i
          [b / 8 % 32, b * 4 % 32 ||| c / 64 % 32, c / 2 % 32,
           c * 16 % 32 ||| d / 16 % 32, d * 2 % 32 ||| e / 128 % 32,
           e / 4 % 32, e * 8 % 32 ||| f / 32 % 32, f % 32]
          (b32syms (g :: rest)) (by simp; omega)
        simp only [List.length_cons, List.length_nil] at happ
        rw [show i + (0 + 1 + 1 + 1 + 1 + 1 + 1 + 1 + 1) = i + 8 from by
          omega] at happ
        rw [happ]
        simp [b32syms]
      · simp only [List.length_set]; omega
      · simp only [List.length_set, orStep_length]; omega
      · simp only [List.length_set, orStep_length]; omega
      · simp only [List.length_set, orStep_length]; omega
    · simp only [b32Loop]
      rw [orStep_set, orStep_set, orStep_set, orStep_set]
      · have hw := writeList_eq
          [b / 8 % 32, b * 4 % 32 ||| c / 64 % 32, c / 2 % 32,
           c * 16 % 32 ||| d / 16 % 32, d * 2 % 32 ||| e / 128 % 32,
           e / 4 % 32, e * 8 % 32 ||| f / 32 % 32, f % 32]
          r i (by simp; omega)
        simp only [writeList] at hw
        rw [hw]
        have hIH := IH hne' (bufAfter r i
          [b / 8 % 32, b * 4 % 32 ||| c / 64 % 32, c / 2 % 32,
           c * 16 % 32 ||| d / 16 % 32, d * 2 % 32 ||| e / 128 % 32,
           e / 4 % 32, e * 8 % 32 ||| f / 32 % 32, f % 32])
          (i + 8) (j + 5)
          (by rw [bufAfter_length _ _ _ (by simp; omega)]; omega)
        rw [hIH.2.1, hL]
        omega
      · simp only [List.length_set]; omega
      · simp only [List.length_set, orStep_length]; omega
      · simp only [List.length_set, orStep_length]; omega
      · simp only [List.length_set, orStep_length]; omega
    · simp only [b32Loop]
      rw [orStep_set, orStep_set, orStep_set, orStep_set]
      · have hw := writeList_eq
          [b / 8 % 32, b * 4 % 32 ||| c / 64 % 32, c / 2 % 32,
           c * 16 % 32 ||| d / 16 % 32, d * 2 % 32 ||| e / 128 % 32,
           e / 4 % 32, e * 8 % 32 ||| f / 32 % 32, f % 32]
          r i (by simp; omega)
        simp only [writeList] at hw
        rw [hw]
        have hIH := IH hne' (bufAfter r i
          [b / 8 % 32, b * 4 % 32 ||| c / 64 % 32, c / 2 % 32,
           c * 16 % 32 ||| d / 16 % 32, d * 2 % 32 ||| e / 128 % 32,
           e / 4 % 32, e * 8 % 32 ||| f / 32 % 32, f % 32])
          (i + 8) (j + 5)
          (by rw [bufAfter_length _ _ _ (by simp; omega)]; omega)
        intro a ha
        simp only [List.mem_append, List.mem_cons, List.not_mem_nil,
          or_false] at ha
        rcases ha with hgrp | hmem
        · rcases hgrp with rfl | rfl | rfl | rfl | rfl | rfl | rfl | rfl |
            rfl | rfl | rfl | rfl | rfl | rfl | rfl | rfl | rfl <;>
            simp only [accLt, hL, List.length_cons] <;> omega
        · exact accLt_mono _ _ _ _ a (hIH.2.2 a hmem)
            (by simp only [List.length_cons]; omega) (by rw [hL]; omega)
      · simp only [List.length_set]; omega
      · simp only [List.length_set, orStep_length]; omega
      · simp only [List.length_set, orStep_length]; omega
      · simp only [List.length_set, orStep_length]; omega

theorem b32syms_length : ∀ inp : List Nat,
    (b32syms inp).length = inp.length / 5 * 8 + tailLen (inp.length % 5) := by
  intro inp
  induction inp using fiveInduction with
  | h0 => simp [b32syms, tailLen]
  | h1 b => simp [b32syms, tailLen]
  | h2 b c => simp [b32syms, tailLen]
  | h3 b c d => simp [b32syms, tailLen]
  | h4 b c d e => simp [b32syms, tailLen]
  | h5 b c d e f => simp [b32syms, tailLen]
  | hstep b c d e f g rest IH =>
    have h6 : (b :: c :: d :: e :: f :: g :: rest).length
        = (g :: rest).length + 5 := by
      simp only [List.length_cons]
      try omega
    have h8 : (b32syms (b :: c :: d :: e :: f :: g :: rest)).length
        = 8 + (b32syms (g :: rest)).length := by
      simp only [b32syms, List.length_append, List.length_cons,
        List.length_nil]
      try omega
    rw [h8, IH, h6]
    rw [show ((g :: rest).length + 5) % 5 = (g :: rest).length % 5 from by
      omega]
    rw [show ((g :: rest).length + 5) / 5 = (g :: rest).length / 5 + 1 from by
      omega]
    generalize tailLen ((g :: rest).length % 5) = t
    omega

theorem b32syms_le (inp : List Nat) :
    (b32syms inp).length ≤ base32OutSize inp.length := by
  rw [b32syms_length]
  unfold base32OutSize tailLen
  split_ifs <;> omega

theorem lor4 : ∀ x < 8, ∀ y < 4, x * 4 ||| y = x * 4 + y := by decide

theorem lor16 : ∀ x < 2, ∀ y < 16, x * 16 ||| y = x * 16 + y := by decide

theorem lor2 : ∀ x < 16, ∀ y < 2, x * 2 ||| y = x * 2 + y := by decide

theorem lor8 : ∀ x < 4, ∀ y < 8, x * 8 ||| y = x * 8 + y := by decide

theorem sym0_eq (b : Nat) : b / 8 % 32
    = 16*(b/128%2) + 8*(b/64%2) + 4*(b/32%2) + 2*(b/16%2) + b/8%2 := by
  omega

theorem sym1_eq (b c : Nat) (hc : c < 256) : b * 4 % 32 ||| c / 64 % 32
    = 16*(b/4%2) + 8*(b/2%2) + 4*(b%2) + 2*(c/128%2) + c/64%2 := by
  rw [show b * 4 % 32 = b % 8 * 4 from by omega,
      show c / 64 % 32 = c / 64 from by omega,
      lor4 (b % 8) (by omega) (c / 64) (by omega)]
  omega

theorem sym2_eq (c : Nat) : c / 2 % 32
    = 16*(c/32%2) + 8*(c/16%2) + 4*(c/8%2) + 2*(c/4%2) + c/2%2 := by
  omega

theorem sym3_eq (c d : Nat) (hd : d < 256) : c * 16 % 32 ||| d / 16 % 32
    = 16*(c%2) + 8*(d/128%2) + 4*(d/64%2) + 2*(d/32%2) + d/16%2 := by
  rw [show c * 16 % 32 = c % 2 * 16 from by omega,
      show d / 16 % 32 = d / 16 from by omega,
      lor16 (c % 2) (by omega) (d / 16) (by omega)]
  omega

theorem sym4_eq (d e : Nat) (he : e < 256) : d * 2 % 32 ||| e / 128 % 32
    = 16*(d/8%2) + 8*(d/4%2) + 4*(d/2%2) + 2*(d%2) + e/128%2 := by
  rw [show d * 2 % 32 = d % 16 * 2 from by omega,
      show e / 128 % 32 = e / 128 from by omega,
      lor2 (d % 16) (by omega) (e / 128) (by omega)]
  omega

theorem sym5_eq (e : Nat) : e / 4 % 32
    = 16*(e/64%2) + 8*(e/32%2) + 4*(e/16%2) + 2*(e/8%2) + e/4%2 := by
  omega

theorem sym6_eq (e f : Nat) (hf : f < 256) : e * 8 % 32 ||| f / 32 % 32
    = 16*(e/2%2) + 8*(e%2) + 4*(f/128%2) + 2*(f/64%2) + f/32%2 := by
  rw [show e * 8 % 32 = e % 4 * 8 from by omega,
      show f / 32 % 32 = f / 32 from by omega,
      lor8 (e % 4) (by omega) (f / 32) (by omega)]
  omega

theorem sym7_eq (f : Nat) : f % 32
    = 16*(f/16%2) + 8*(f/8%2) + 4*(f/4%2) + 2*(f/2%2) + f%2 := by
  omega

/-- The packing loop's symbol values are exactly the RFC 4648 interleave
of the spec, byte for byte (inputs are bytes, i.e. below 256). -/
theorem b32syms_eq_rfc : ∀ inp : List Nat, (∀ x ∈ inp, x < 256) →
    b32syms inp = rfcSyms inp := by
  intro inp
  induction inp using fiveInduction with
  | h0 => intro _; rfl
  | h1 b =>
    intro _
    simp only [b32syms, rfcSyms, List.cons.injEq, and_true]
    exact ⟨sym0_eq b, by omega⟩
  | h2 b c =>
    intro hx
    have hc : c < 256 := hx c (by simp)
    simp only [b32syms, rfcSyms, List.cons.injEq, and_true]
    exact ⟨sym0_eq b, sym1_eq b c hc, sym2_eq c, by omega⟩
  | h3 b c d =>
    intro hx
    have hc : c < 256 := hx c (by simp)
    have hd : d < 256 := hx d (by simp)
    simp only [b32syms, rfcSyms, List.cons.injEq, and_true]
    exact ⟨sym0_eq b, sym1_eq b c hc, sym2_eq c, sym3_eq c d hd, by omega⟩
  | h4 b c d e =>
    intro hx
    have hc : c < 256 := hx c (by simp)
    have hd : d < 256 := hx d (by simp)
    have he : e < 256 := hx e (by simp)
    simp only [b32syms, rfcSyms, List.cons.injEq, and_true]
    exact ⟨sym0_eq b, sym1_eq b c hc, sym2_eq c, sym3_eq c d hd,
      sym4_eq d e he, sym5_eq e, by omega⟩
  | h5 b c d e f =>
    intro hx
    have hc : c < 256 := hx c (by simp)
    have hd : d < 256 := hx d (by simp)
    have he : e < 256 := hx e (by simp)
    have hf : f < 256 := hx f (by simp)
    simp only [b32syms, rfcSyms, List.cons_append, List.nil_append,
      List.cons.injEq, and_true]
    exact ⟨sym0_eq b, sym1_eq b c hc, sym2_eq c, sym3_eq c d hd,
      sym4_eq d e he, sym5_eq e, sym6_eq e f hf, sym7_eq f⟩
  | hstep b c d e f g rest IH =>
    intro hx
    have hc : c < 256 := hx c (by simp)
    have hd : d < 256 := hx d (by simp)
    have he : e < 256 := hx e (by simp)
    have hf : f < 256 := hx f (by simp)
    have hxtail : ∀ x ∈ g :: rest, x < 256 := by
      intro x hx'
      apply hx
      simp only [List.mem_cons] at hx' ⊢
      tauto
    have hrec := IH hxtail
    simp only [b32syms, rfcSyms, List.cons_append, List.nil_append,
      List.cons.injEq]
    rw [hrec]
    exact ⟨sym0_eq b, sym1_eq b c hc, sym2_eq c, sym3_eq c d hd,
      sym4_eq d e he, sym5_eq e, sym6_eq e f hf, sym7_eq f, rfl⟩

theorem rfcSyms_lt32 : ∀ inp : List Nat, ∀ v ∈ rfcSyms inp, v < 32 := by
  intro inp
  induction inp using fiveInduction with
  | h0 => intro v hv; simp [rfcSyms] at hv
  | h1 b =>
    intro v hv
    simp only [rfcSyms, List.mem_cons, List.not_mem_nil, or_false] at hv
    rcases hv with rfl | rfl <;> omega
  | h2 b c =>
    intro v hv
    simp only [rfcSyms, List.mem_cons, List.not_mem_nil, or_false] at hv
    rcases hv with rfl | rfl | rfl | rfl <;> omega
  | h3 b c d =>
    intro v hv
    simp only [rfcSyms, List.mem_cons, List.not_mem_nil, or_false] at hv
    rcases hv with rfl | rfl | rfl | rfl | rfl <;> omega
  | h4 b c d e =>
    intro v hv
    simp only [rfcSyms, List.mem_cons, List.not_mem_nil, or_false] at hv
    rcases hv with rfl | rfl | rfl | rfl | rfl | rfl | rfl <;> omega
  | h5 b c d e f =>
    intro v hv
    simp only [rfcSyms, List.mem_append, List.mem_cons, List.not_mem_nil,
      or_false] at hv
    rcases hv with rfl | rfl | rfl | rfl | rfl | rfl | rfl | rfl <;> omega
  | hstep b c d e f g rest IH =>
    intro v hv
    simp only [rfcSyms, List.cons_append, List.mem_cons] at hv
    rcases hv with rfl | rfl | rfl | rfl | rfl | rfl | rfl | rfl | hmem
    · omega
    · omega
    · omega
    · omega
    · omega
    · omega
    · omega
    · omega
    · exact IH v (by simpa [rfcSyms] using hmem)

theorem b32syms_lt32 (inp : List Nat) (h : ∀ x ∈ inp, x < 256) :
    ∀ v ∈ b32syms inp, v < 32 := by
  rw [b32syms_eq_rfc inp h]
  exact rfcSyms_lt32 inp

theorem set_append_len : ∀ (xs : List Nat) (y v : Nat) (ys : List Nat),
    (xs ++ y :: ys).set xs.length v = xs ++ v :: ys := by
  intro xs
  induction xs with
  | nil => intro y v ys; rfl
  | cons x xs ih =>
    intro y v ys
    simp only [List.cons_append, List.length_cons, List.set_cons_succ]
    rw [ih]

theorem alphaMap_append : ∀ xs ys : List Nat,
    alphaMap (xs ++ ys) xs.length
      = xs.map (fun v => base32tab.getD v 0) ++ ys := by
  intro xs
  induction xs with
  | nil => intro ys; simp [alphaMap]
  | cons v xs ih =>
    intro ys
    simp only [List.cons_append, List.length_cons, alphaMap, List.map_cons,
      List.append_eq]
    rw [ih]

theorem padGo_writes : ∀ (m : Nat) (r : List Nat) (i : Nat),
    (padGo m r i).2.2 = List.range' i m := by
  intro m
  induction m with
  | zero => intro r i; rfl
  | succ m ih =>
    intro r i
    simp only [padGo, ih, List.range'_succ]

theorem padGo_i : ∀ (m : Nat) (r : List Nat) (i : Nat),
    (padGo m r i).2.1 = i + m := by
  intro m
  induction m with
  | zero => intro r i; simp [padGo]
  | succ m ih =>
    intro r i
    simp only [padGo, ih]
    omega

theorem padGo_buf : ∀ (m : Nat) (xs ys : List Nat) (k : Nat),
    k = xs.length → m ≤ ys.length →
    (padGo m (xs ++ ys) k).1
      = xs ++ List.replicate m 61 ++ ys.drop m := by
  intro m
  induction m with
  | zero =>
    intro xs ys k hk _
    simp [padGo]
  | succ m ih =>
    intro xs ys k hk hm
    cases ys with
    | nil => simp at hm
    | cons y ys' =>
      subst hk
      simp only [padGo]
      rw [set_append_len xs y 61 ys']
      rw [show xs ++ 61 :: ys' = (xs ++ [61]) ++ ys' from by simp]
      rw [show xs.length + 1 = (xs ++ [61]).length from by simp]
      have hres := ih (xs ++ [61]) ys' ((xs ++ [61]).length) rfl
        (by simp only [List.length_cons] at hm; omega)
      rw [hres]
      simp only [List.replicate_succ, List.drop_succ_cons, List.append_assoc,
        List.singleton_append, List.cons_append, List.nil_append]

theorem tab_ne : ∀ v < 32, base32tab.getD v 0 ≠ 0 ∧ base32tab.getD v 0 ≠ 61
    := by decide

theorem set_append_len' (xs : List Nat) (y v : Nat) (ys : List Nat) (k : Nat)
    (hk : k = xs.length) : (xs ++ y :: ys).set k v = xs ++ v :: ys := by
  subst hk
  exact set_append_len xs y v ys

/-- Full characterisation of `base32enc` on nonempty byte input: the
alphabet image of the packing-loop symbols, followed by '=' padding up to
`out_size`. -/
theorem base32enc_eq (inp : List Nat) (h1 : inp ≠ [])
    (h2 : ∀ x ∈ inp, x < 256) :
    base32enc inp
      = (b32syms inp).map (fun v => base32tab.getD v 0)
        ++ List.replicate
            (base32OutSize inp.length - (b32syms inp).length) 61 := by
  have hle := b32syms_le inp
  have hspec := b32Loop_spec inp h1
    (List.replicate (base32OutSize inp.length + 3) 0) 0 0
    (by simp only [List.length_replicate]; omega)
  have hbuf : (b32run inp).1
      = b32syms inp ++ List.replicate
          (base32OutSize inp.length + 3 - (b32syms inp).length) 0 := by
    unfold b32run
    rw [hspec.1]
    unfold bufAfter
    simp [List.drop_replicate]
  have hi : (b32run inp).2.1 = (b32syms inp).length := by
    unfold b32run
    rw [hspec.2.1]
    exact Nat.zero_add _
  simp only [base32enc, padLoop]
  rw [hbuf, hi, alphaMap_append]
  rw [padGo_buf (base32OutSize inp.length - (b32syms inp).length)
    ((b32syms inp).map (fun v => base32tab.getD v 0))
    (List.replicate (base32OutSize inp.length + 3 - (b32syms inp).length) 0)
    (b32syms inp).length ((List.length_map _ _).symm)
    (by simp only [List.length_replicate]; omega)]
  rw [padGo_i]
  rw [List.drop_replicate]
  rw [show base32OutSize inp.length + 3 - (b32syms inp).length
      - (base32OutSize inp.length - (b32syms inp).length) = 3 from by omega]
  rw [show (b32syms inp).length
      + (base32OutSize inp.length - (b32syms inp).length)
      = base32OutSize inp.length from by omega]
  rw [show (List.replicate 3 (0 : Nat)) = 0 :: [0, 0] from rfl]
  have hlen2 : ((b32syms inp).map (fun v => base32tab.getD v 0)
        ++ List.replicate
            (base32OutSize inp.length - (b32syms inp).length) 61).length
      = base32OutSize inp.length := by
    simp only [List.length_append, List.length_map, List.length_replicate]
    omega
  rw [set_append_len' _ _ _ _ _ hlen2.symm]
  have hpos : ∀ a ∈ (b32syms inp).map (fun v => base32tab.getD v 0)
      ++ List.replicate
          (base32OutSize inp.length - (b32syms inp).length) 61,
      (fun c => decide (c ≠ 0)) a = true := by
    intro a ha
    simp only [List.mem_append, List.mem_map, List.mem_replicate] at ha
    simp only [decide_eq_true_eq]
    rcases ha with ⟨v, hv, rfl⟩ | ⟨-, rfl⟩
    · exact (tab_ne v (b32syms_lt32 inp h2 v hv)).1
    · omega
  rw [List.takeWhile_append_of_pos hpos]
  simp

/-- C1 counterexample: on the empty input, `base32enc` is not access-safe —
the entry of the packing loop reads `in[0]` although `in_size = 0`, and the
alphabet pass, the stray second write and the NUL store all touch indices at
or past the one-byte allocation `out_size + 1 = 1`. -/
theorem base32enc_empty_oob : ¬ base32encSafe [] := by decide

/-- C1 (amended: the claim fails on the empty sequence, where the code reads
`in[0]` out of bounds; it holds for every nonempty input): for every
nonempty byte sequence, `base32enc` reads only input bytes at indices below
`in_size` and accesses its output allocation only at indices below
`out_size + 1`, the size it mallocs. -/
theorem base32enc_safe_of_ne_nil (inp : List Nat) (h1 : inp ≠ []) :
    base32encSafe inp := by
  have hle := b32syms_le inp
  have hspec := b32Loop_spec inp h1
    (List.replicate (base32OutSize inp.length + 3) 0) 0 0
    (by simp only [List.length_replicate]; omega)
  have hi : (b32run inp).2.1 = (b32syms inp).length := by
    unfold b32run
    rw [hspec.2.1]
    exact Nat.zero_add _
  have htr : ∀ a ∈ (b32run inp).2.2,
      accLt (0 + inp.length) (0 + (b32syms inp).length) a := by
    unfold b32run
    exact hspec.2.2
  constructor
  · intro k hk
    simp only [base32encReads, List.mem_filterMap] at hk
    obtain ⟨a, ha, hfa⟩ := hk
    have hacc := htr a ha
    cases a with
    | rd k' =>
      simp only [Option.some.injEq] at hfa
      subst hfa
      simpa [accLt] using hacc
    | wr m' => simp at hfa
  · intro m hm
    simp only [base32encOutAccs, padLoop, hi, List.mem_append,
      List.mem_cons, List.not_mem_nil, or_false] at hm
    rcases hm with ((hw | hr) | hp) | hlast
    · simp only [List.mem_filterMap] at hw
      obtain ⟨a, ha, hfa⟩ := hw
      have hacc := htr a ha
      cases a with
      | rd k' => simp at hfa
      | wr m' =>
        simp only [Option.some.injEq] at hfa
        subst hfa
        simp only [accLt, Nat.zero_add] at hacc
        omega
    · rw [List.mem_range] at hr
      omega
    · rw [padGo_writes, List.mem_range'_1] at hp
      omega
    · rw [padGo_i] at hlast
      omega

/-- C1 witness: the amended safety theorem at the input `[0]`. -/
theorem base32enc_safe_witness : base32encSafe [0] :=
  base32enc_safe_of_ne_nil [0] (by decide)

/-- C7 counterexample: `base32enc` of the empty sequence is not the empty
string — the loop body runs once regardless, so the returned C string has
two alphabet characters before the NUL (besides accessing memory out of
bounds, see the C1 counterexample), while `ceil(0/5)*8 = 0`. -/
theorem base32enc_empty_len : base32enc [] ≠ [] ∧
    (base32enc []).length ≠ base32OutSize 0 := by decide

/-- C7 (amended: the claim fails on the empty sequence; it holds for every
nonempty input): for every nonempty byte sequence the string `base32enc`
returns has length exactly `((in_size + 4) / 5) * 8 = ceil(in_size/5) * 8`. -/
theorem base32enc_length (inp : List Nat) (h1 : inp ≠ [])
    (h2 : ∀ x ∈ inp, x < 256) :
    (base32enc inp).length = base32OutSize inp.length := by
  rw [base32enc_eq inp h1 h2]
  simp only [List.length_append, List.length_map, List.length_replicate]
  have := b32syms_le inp
  omega

/-- C7 witness: the amended length theorem at the input `[1, 2, 3]`. -/
theorem base32enc_length_witness :
    (base32enc [1, 2, 3]).length = base32OutSize 3 :=
  base32enc_length [1, 2, 3] (by decide) (by decide)

/-- C5 counterexample: for a 1-byte input (`len mod 5 = 1`) the encoder
emits 6 padding characters, not the 1 the claim's table assigns. -/
theorem base32enc_pad_table_cex : (1 : Nat) % 5 = 1 ∧
    (base32enc [0]).count 61 = 6 ∧ (base32enc [0]).count 61 ≠ 1 := by
  decide

/-- C5 (amended: the claimed table `{0,1,3,4,6}` is reversed; the code
produces `{0,6,4,3,1}` '=' characters according as `len(b) mod 5` is
`0,1,2,3,4`): padding-character count of `base32enc` on nonempty byte
sequences ('=' is ASCII 61). -/
theorem base32enc_pad_count (inp : List Nat) (h1 : inp ≠ [])
    (h2 : ∀ x ∈ inp, x < 256) :
    (base32enc inp).count 61 = padCount (inp.length % 5) := by
  rw [base32enc_eq inp h1 h2]
  rw [List.count_append]
  have hmap : ((b32syms inp).map (fun v => base32tab.getD v 0)).count 61 = 0
      := by
    rw [List.count_eq_zero]
    intro hmem
    simp only [List.mem_map] at hmem
    obtain ⟨v, hv, hv61⟩ := hmem
    exact (tab_ne v (b32syms_lt32 inp h2 v hv)).2 hv61
  rw [hmap, List.count_replicate_self, b32syms_length]
  unfold base32OutSize padCount tailLen
  split_ifs <;> omega

/-- C5 witness: the amended padding table at the 2-byte input `[7, 7]`. -/
theorem base32enc_pad_count_witness :
    (base32enc [7, 7]).count 61 = padCount (2 % 5) :=
  base32enc_pad_count [7, 7] (by decide) (by decide)

/-- C6: on every nonempty byte sequence the emitted data characters are
exactly the RFC 4648 interleave symbols (5-bit groups taken MSB-first
across each up-to-5-byte group) mapped through the alphabet A-Z,2-7; in
particular five zero bytes encode to "AAAAAAAA". -/
theorem base32enc_rfc4648 (inp : List Nat) (h1 : inp ≠ [])
    (h2 : ∀ x ∈ inp, x < 256) :
    (base32enc inp).take (rfcSyms inp).length
      = (rfcSyms inp).map (fun v => base32tab.getD v 0) ∧
    base32enc (List.replicate 5 0) = "AAAAAAAA".toList.map Char.toNat := by
  constructor
  · rw [base32enc_eq inp h1 h2, ← b32syms_eq_rfc inp h2]
    rw [show (b32syms inp).length = ((b32syms inp).map
        (fun v => base32tab.getD v 0)).length from (List.length_map _ _).symm]
    exact List.take_left _ _
  · decide

/-- C6 witness: the RFC interleave theorem at the input `[1, 2]`. -/
theorem base32enc_rfc4648_witness :
    (base32enc [1, 2]).take (rfcSyms [1, 2]).length
      = (rfcSyms [1, 2]).map (fun v => base32tab.getD v 0) ∧
    base32enc (List.replicate 5 0) = "AAAAAAAA".toList.map Char.toNat :=
  base32enc_rfc4648 [1, 2] (by decide) (by decide)

theorem sum_replicate_nat : ∀ (n k : Nat), (List.replicate n k).sum = n * k
    := by
  intro n k
  induction n with
  | zero => simp
  | succ n ih =>
    simp only [List.replicate_succ, List.sum_cons, ih]
    ring

theorem qrCell_length (v : Nat) : (qrCell v).length = 7 := by
  unfold qrCell
  split_ifs <;> rfl

theorem marginRow_length (w : Nat) : (marginRowChars w).length = 2 * w + 14
    := by
  unfold marginRowChars
  rw [List.length_append, List.length_append, List.length_replicate,
      show ("\x1b[47m".toList).length = 5 from rfl,
      show ("\x1b[0m\n".toList).length = 5 from rfl]
  omega

theorem qrRow_length (w y : Nat) (data : List Nat) :
    (qrRowChars w y data).length = 7 * w + 19 := by
  unfold qrRowChars
  rw [List.length_append, List.length_append, List.length_flatten,
      List.map_map]
  have hcongr : (List.range w).map
        ((fun l => List.length l) ∘ (fun x => qrCell (data.getD (y*w+x) 0)))
      = (List.range w).map (fun _ => 7) :=
    List.map_congr_left (fun x _ => qrCell_length _)
  rw [hcongr, List.map_const', List.length_range, sum_replicate_nat,
      show (lightBlockStr.toList).length = 7 from rfl,
      show (rowEndStr.toList).length = 12 from rfl]
  ring

theorem qrpic_length (w : Nat) (data : List Nat) :
    (qrpicChars w data).length = 7 * w * w + 23 * w + 28 := by
  unfold qrpicChars
  rw [List.length_append, List.length_append, List.length_flatten,
      List.map_map]
  have hcongr : (List.range w).map
        ((fun l => List.length l) ∘ (fun y => qrRowChars w y data))
      = (List.range w).map (fun _ => 7 * w + 19) :=
    List.map_congr_left (fun y _ => qrRow_length w y data)
  rw [hcongr, List.map_const', List.length_range, sum_replicate_nat,
      marginRow_length]
  ring

/-- C8: for every matrix width and every module assignment, the bytes the
rasterizer writes — two margin rows, `w` data rows with their ANSI color
sequences and line breaks, and the terminating NUL — fit inside the size
computed by its `malloc` expression (they even leave two spare bytes). -/
theorem qrencode_alloc_bound (w : Nat) (hw : 1 ≤ w) (data : List Nat) :
    (qrpicChars w data).length + 1 ≤ qrAlloc w := by
  rw [qrpic_length]
  unfold qrAlloc
  rw [show marginFmtStr.length = 13 from rfl,
      show lightBlockStr.length = 7 from rfl,
      show rowEndStr.length = 12 from rfl]
  have h : 2 * ((w + 2) * 2 - 2 + 13) + w * (7 * (w + 1) + 12) + 1
      = 7 * w * w + 23 * w + 31 := by
    have h2 : (w + 2) * 2 - 2 = 2 * w + 2 := by omega
    rw [h2]
    ring
  rw [h]
  omega

/-- C8 witness: the allocation bound at width 1 with an empty matrix. -/
theorem qrencode_alloc_bound_witness :
    (qrpicChars 1 []).length + 1 ≤ qrAlloc 1 :=
  qrencode_alloc_bound 1 (by decide) []

/-- C2: the Reseal branch performs load, reseal, delete, store in exactly
that order — every run's call sequence is a front segment of that order,
the all-success run performs exactly it and returns 0 — and when the delete
call fails the process exits with status 1 without ever calling store. -/
theorem reseal_call_order (l r d s : Nat) (hd : d ≠ 0) :
    resealCmd 0 0 0 0 = (resealFullSeq, 0) ∧
    (resealCmd l r d s).1
      = resealFullSeq.take (resealCmd l r d s).1.length ∧
    (resealCmd l r d s).2 = 1 ∧
    StorageCall.store ∉ (resealCmd l r d s).1 := by
  refine ⟨rfl, ?_, ?_, ?_⟩ <;>
    · simp only [resealCmd, resealFullSeq]
      split_ifs <;> simp_all

/-- C2 witness: the ordering theorem with a failing delete (rc 1). -/
theorem reseal_call_order_witness :
    resealCmd 0 0 0 0 = (resealFullSeq, 0) ∧
    (resealCmd 0 0 1 0).1 = resealFullSeq.take (resealCmd 0 0 1 0).1.length ∧
    (resealCmd 0 0 1 0).2 = 1 ∧
    StorageCall.store ∉ (resealCmd 0 0 1 0).1 :=
  reseal_call_order 0 0 1 0 (by decide)

/-- C3 is a code bug, evaluated at the failing input `-N 0x1234`: 'N' is
declared in `optstr` and in `long_options`, so `getopt_long` returns 'N',
but the switch of `parse_opts` has no `case 'N'` — its nvindex-parsing code
sits under the dead label `case 'e'`, which no declared option produces —
so the default branch exits with status 1 and the value is never stored;
moreover the initial state sets `nvindex = 0`, not the fixed well-known
default `0x018094AF` that the help text documents. -/
theorem nvindex_option_code_bug :
    getoptLongModel 'N' = 'N' ∧
    switchStep initOpts (getoptLongModel 'N') "0x1234" = LoopOut.exitWith 1 ∧
    'e' ∉ shortOptChars ∧ 'e' ∉ longOptionVals ∧
    switchStep initOpts 'e' "0x1234"
      = LoopOut.proceed { initOpts with nvindex := 0x1234 } ∧
    initOpts.nvindex = 0 ∧ (0x018094AF : Int) ≠ initOpts.nvindex := by
  decide

/-- C4 is a code bug, evaluated at the failing input `-h`: the switch's
`case 'h'` would print the usage text and exit 0 (third conjunct from last),
but 'h' is not declared in `optstr` and "help" is not in `long_options`, so
`getopt_long` returns '?' for `-h` and `--help`, and the default branch —
which also prints the usage text after "Unknown option" — exits with
status 1, not 0. -/
theorem help_flag_code_bug :
    'h' ∉ shortOptChars ∧ "help" ∉ longOptionNames ∧
    getoptLongModel 'h' = '?' ∧ getoptLongNameModel "help" = '?' ∧
    switchStep initOpts 'h' "" = LoopOut.exitWith 0 ∧
    switchStep initOpts '?' "" = LoopOut.exitWith 1 := by
  decide

theorem natDigitsGo_len : ∀ (fuel n k : Nat), 1 ≤ k → n < 10 ^ k →
    (natDigitsGo fuel n).length ≤ k := by
  intro fuel
  induction fuel with
  | zero =>
    intro n k h1 _
    simp [natDigitsGo]
  | succ fuel ih =>
    intro n k h1 h2
    by_cases hn : n < 10
    · simp only [natDigitsGo, if_pos hn, List.length_cons, List.length_nil]
      omega
    · rcases k with _ | k
      · omega
      rcases k with _ | k
      · have : (10 : Nat) ^ 1 = 10 := by norm_num
        omega
      · simp only [natDigitsGo, if_neg hn, List.length_append,
          List.length_cons, List.length_nil]
        have hdiv : n / 10 < 10 ^ (k + 1) := by
          rw [Nat.div_lt_iff_lt_mul (by norm_num)]
          calc n < 10 ^ (k + 2) := h2
            _ = 10 ^ (k + 1) * 10 := by ring
        have := ih (n / 10) (k + 1) (by omega) hdiv
        omega

theorem format06_length (n : Nat) (hn : n < 1000000) :
    (format06 n).length = 6 := by
  unfold format06 natDigits
  simp only [List.length_append, List.length_replicate]
  have hp : (10 : Nat) ^ 6 = 1000000 := by norm_num
  have h := natDigitsGo_len (n + 1) n 6 (by omega) (by omega)
  omega

theorem natDigits_last (n : Nat) : ∃ m, m < 10 ∧
    (natDigits n).getLast? = some (Char.ofNat (48 + m)) := by
  by_cases hn : n < 10
  · exact ⟨n, hn, by simp [natDigits, natDigitsGo, hn]⟩
  · exact ⟨n % 10, by omega, by simp [natDigits, natDigitsGo, hn]⟩

theorem digit_ne_newline : ∀ m < 10, Char.ofNat (48 + m) ≠ '\x0a' := by
  decide

/-- C9: on success Calculate prints the local-time `strftime` prefix exactly
when the time flag is set (and nothing in its place otherwise), followed by
the TOTP code zero-padded to exactly 6 digits, with no trailing line break;
the output is a pure function of the sealed-blob-derived code and timestamp
(deterministic); and code value 42 renders as "000042". -/
theorem calculate_output_format (tf : Bool) (ts : List Char) (n : Nat)
    (hn : n < 1000000) :
    calculateOutput true ts n = ts ++ format06 n ∧
    calculateOutput false ts n = format06 n ∧
    (format06 n).length = 6 ∧
    (calculateOutput tf ts n).getLast? ≠ some '\x0a' ∧
    calculateOutput false [] 42 = "000042".toList := by
  refine ⟨rfl, rfl, format06_length n hn, ?_, by decide⟩
  unfold calculateOutput format06
  obtain ⟨m, hm, hlast⟩ := natDigits_last n
  simp only [List.getLast?_append, hlast, Option.or_some]
  intro hcontra
  exact digit_ne_newline m hm (by simpa using hcontra)

/-- C9 witness: the Calculate output theorem at code 42. -/
theorem calculate_output_format_witness :
    calculateOutput true [] 42 = [] ++ format06 42 ∧
    calculateOutput false [] 42 = format06 42 ∧
    (format06 42).length = 6 ∧
    (calculateOutput false [] 42).getLast? ≠ some '\x0a' ∧
    calculateOutput false [] 42 = "000042".toList :=
  calculate_output_format false [] 42 (by decide)

theorem switchStep_cmd (st : OptState) (c : Char) (a : String)
    (st' : OptState) (h : switchStep st c a = LoopOut.proceed st') :
    st'.cmd = st.cmd := by
  unfold switchStep at h
  split_ifs at h
  · cases hp : parseNvindexArg a with
    | some v =>
      rw [hp] at h
      simp only [LoopOut.proceed.injEq] at h
      subst h
      rfl
    | none =>
      rw [hp] at h
      simp at h
  · simp only [LoopOut.proceed.injEq] at h
    subst h
    rfl
  · simp only [LoopOut.proceed.injEq] at h
    subst h
    rfl
  · simp only [LoopOut.proceed.injEq] at h
    subst h
    rfl

theorem optLoop_cmd : ∀ (evs : List (Char × String)) (st st' : OptState),
    optLoop st evs = LoopOut.proceed st' → st'.cmd = st.cmd := by
  intro evs
  induction evs with
  | nil =>
    intro st st' h
    simp only [optLoop, LoopOut.proceed.injEq] at h
    rw [h]
  | cons ev rest ih =>
    intro st st' h
    rcases ev with ⟨c, a⟩
    simp only [optLoop] at h
    cases hsw : switchStep st c a with
    | proceed st1 =>
      rw [hsw] at h
      rw [ih st1 st' h, switchStep_cmd st c a st1 hsw]
    | exitWith k =>
      rw [hsw] at h
      simp at h

theorem cmdOfToken_ne_none (tok : String) (cval : Cmd)
    (h : cmdOfToken tok = some cval) : cval ≠ Cmd.CMD_NONE := by
  unfold cmdOfToken at h
  split_ifs at h <;>
    (simp only [Option.some.injEq] at h; rw [← h]; simp)

theorem parseCmdPhase_cmd (st st' : OptState) (args : List String)
    (h : parseCmdPhase st args = LoopOut.proceed st') :
    st'.cmd ≠ Cmd.CMD_NONE := by
  cases args with
  | nil => simp [parseCmdPhase] at h
  | cons tok rest =>
    simp only [parseCmdPhase] at h
    cases hc : cmdOfToken tok with
    | none =>
      simp only [hc] at h
      simp at h
    | some cval =>
      simp only [hc] at h
      by_cases hr : rest = []
      · rw [if_pos hr] at h
        simp only [LoopOut.proceed.injEq] at h
        subst h
        simpa using cmdOfToken_ne_none tok cval hc
      · rw [if_neg hr] at h
        simp at h

/-- C10: whenever `parse_opts` returns to `main` (rather than terminating
the process), `opt.cmd` has been set to one of the five command values and
is never `CMD_NONE`; consequently `main`'s command switch selects a real
command branch and its `default: exit(1)` branch is unreachable. -/
theorem parse_opts_cmd_set (evs : List (Char × String)) (args : List String)
    (st : OptState) (h : parse_opts evs args = LoopOut.proceed st) :
    st.cmd ≠ Cmd.CMD_NONE ∧ mainSwitch st.cmd ≠ MainBranch.defaultExit1 := by
  unfold parse_opts at h
  cases hopt : optLoop initOpts evs with
  | proceed st0 =>
    rw [hopt] at h
    have h1 := parseCmdPhase_cmd st0 st args h
    refine ⟨h1, ?_⟩
    cases hc : st.cmd <;> simp_all [mainSwitch]
  | exitWith k =>
    rw [hopt] at h
    simp at h

/-- C10 witness: `parse_opts` with no options and the single positional
argument "generate" returns with the generate command selected. -/
theorem parse_opts_cmd_set_witness :
    ({ initOpts with cmd := Cmd.CMD_GENERATE } : OptState).cmd
        ≠ Cmd.CMD_NONE ∧
    mainSwitch ({ initOpts with cmd := Cmd.CMD_GENERATE } : OptState).cmd
        ≠ MainBranch.defaultExit1 :=
  parse_opts_cmd_set [] ["generate"]
    { initOpts with cmd := Cmd.CMD_GENERATE } (by decide)
